import Mathlib

/-!
Verification development for the tyre-shop quotation repository
(src/googleSheets.ts, src/components/Header.tsx,
src/components/SavedQuotesList.tsx, src/types.ts).

The source is shallowly embedded: the pure helpers of the code become Lean
functions, the stateful sync/delete flow of the app component becomes a labelled
transition system over an explicit state record, and the ECMAScript dynamic
values flowing through the remote-store adapter are modelled by an inductive
`JsVal` together with the JS coercions the code relies on (truthiness, String(),
Number(), property access).  `JSON.parse` is an external browser builtin and is
modelled as an oracle parameter `parse : String → Option JsVal` (`none` models a
parse exception).
-/

/-! ## String normalization (Header.tsx `normalize`, line 142-145)

`normalize` is `String(val).toLowerCase().trim().replace(/\s+/g, ' ')`.
We model it on the ASCII whitespace fragment: `isWsChar` plays the role of the
characters matched by both `String.prototype.trim` and the `\s` class. -/

/-- Whitespace characters (ASCII fragment of the JS `\s` class and `trim`). -/
def isWsChar (c : Char) : Bool :=
  c == ' ' || c == '\t' || c == '\n' || c == '\r' || c == '\x0b' || c == '\x0c'

/-- JS `toLowerCase` on one character (ASCII fragment): `A`-`Z` shift by 32,
everything else unchanged. -/
def toLowerCh (c : Char) : Char :=
  if 65 ≤ c.toNat ∧ c.toNat ≤ 90 then Char.ofNat (c.toNat + 32) else c

/-- Remove trailing whitespace (right half of `String.prototype.trim`). -/
def trimRight : List Char → List Char
  | [] => []
  | c :: cs =>
    match trimRight cs with
    | [] => if isWsChar c then [] else [c]
    | r => c :: r

/-- `String.prototype.trim`: drop leading and trailing whitespace. -/
def trimList (l : List Char) : List Char :=
  trimRight (l.dropWhile isWsChar)

/-- `.replace(/\s+/g, ' ')`: collapse every maximal whitespace run to one space. -/
def collapseList : List Char → List Char
  | [] => []
  | [c] => if isWsChar c then [' '] else [c]
  | c :: d :: cs =>
    if isWsChar c && isWsChar d then collapseList (d :: cs)
    else (if isWsChar c then ' ' else c) :: collapseList (d :: cs)

/-- The body of Header.tsx `normalize` on character lists:
`toLowerCase().trim().replace(/\s+/g, ' ')`. -/
def normList (l : List Char) : List Char :=
  collapseList (trimList (l.map toLowerCh))

/-- Header.tsx `normalize` restricted to string inputs (the `String(val)`
coercion is the identity there; the `null`/`undefined` early return is handled
at call sites that can receive them). -/
def normStr (s : String) : String :=
  ⟨normList s.data⟩

/-- JS `String.prototype.trim` on strings. -/
def jsTrim (s : String) : String :=
  ⟨trimList s.data⟩

/-- JS `String.prototype.toLowerCase` (ASCII fragment). -/
def lowerStr (s : String) : String :=
  ⟨s.data.map toLowerCh⟩

/-- Character membership in a string (JS `includes` for one character). -/
def hasChar (s : String) (c : Char) : Bool :=
  s.data.contains c

/-- Whether the string starts with the given character
(JS `startsWith` for a one-character argument). -/
def startsWithChar (s : String) (c : Char) : Bool :=
  match s.data with
  | [] => false
  | d :: _ => d == c

/-- The characters before the first occurrence of `c`:
JS `split(c)[0]` on character lists. -/
def beforeChar (c : Char) : List Char → List Char
  | [] => []
  | d :: rest => if d == c then [] else d :: beforeChar c rest

/-! ## Dynamic JS values

`JsVal` is the semi-structured value space at the remote-store adapter boundary:
everything `JSON.parse` can return, plus `undefined` (missing properties) and
`NaN` (results of `Number(...)`).  Numbers are modelled on the integer fragment. -/

/-- A dynamic ECMAScript value (integer-number fragment). -/
inductive JsVal where
  | null
  | undefined
  | nan
  | bool (b : Bool)
  | num (n : Int)
  | str (s : String)
  | arr (xs : List JsVal)
  | obj (fields : List (String × JsVal))

/-- First-match field lookup, the object half of JS property access. -/
def lookupF : List (String × JsVal) → String → JsVal
  | [], _ => .undefined
  | (k', v) :: rest, k => if k' = k then v else lookupF rest k

/-- JS property access `v.k` on values where it does not throw
(on `null`/`undefined` the caller models the `TypeError` explicitly). -/
def getF (v : JsVal) (k : String) : JsVal :=
  match v with
  | .obj fs => lookupF fs k
  | _ => .undefined

/-- JS truthiness (`ToBoolean`). -/
def jsTruthy : JsVal → Bool
  | .null => false
  | .undefined => false
  | .nan => false
  | .bool b => b
  | .num n => n != 0
  | .str s => s != ""
  | .arr _ => true
  | .obj _ => true

/-- JS `a || b`. -/
def jsOr (a b : JsVal) : JsVal :=
  if jsTruthy a then a else b

/-- JS `String(v)` (ToString; arrays join their elements with commas,
`null`/`undefined` elements becoming empty). -/
def jsToString : JsVal → String
  | .null => "null"
  | .undefined => "undefined"
  | .nan => "NaN"
  | .bool b => if b then "true" else "false"
  | .num n => toString n
  | .str s => s
  | .arr xs => String.intercalate "," (arrParts xs)
  | .obj _ => "[object Object]"
where
  arrParts : List JsVal → List String
    | [] => []
    | .null :: vs => "" :: arrParts vs
    | .undefined :: vs => "" :: arrParts vs
    | v :: vs => jsToString v :: arrParts vs

/-- Digit-run to number, for the integer fragment of JS `StringToNumber`. -/
def digitsToNat (l : List Char) : Option Nat :=
  if l ≠ [] && l.all (·.isDigit) then
    some (l.foldl (fun a c => a * 10 + (c.toNat - 48)) 0)
  else none

/-- JS `StringToNumber` on the signed-integer fragment (other numeric syntax is
outside the embedding and maps to `NaN`); the empty/whitespace string is `0`. -/
def strToNumberVal (s : String) : JsVal :=
  let t := jsTrim s
  if t = "" then .num 0
  else
    match t.data with
    | '-' :: ds => match digitsToNat ds with
      | some n => .num (-(n : Int))
      | none => .nan
    | '+' :: ds => match digitsToNat ds with
      | some n => .num n
      | none => .nan
    | ds => match digitsToNat ds with
      | some n => .num n
      | none => .nan

/-- JS `Number(v)` (ToNumber; objects and arrays go through ToString). -/
def jsToNumber : JsVal → JsVal
  | .num n => .num n
  | .nan => .nan
  | .null => .num 0
  | .undefined => .nan
  | .bool b => .num (if b then 1 else 0)
  | .str s => strToNumberVal s
  | .arr xs => strToNumberVal (jsToString (.arr xs))
  | .obj fs => strToNumberVal (jsToString (.obj fs))

/-- `Array.isArray`. -/
def isArr : JsVal → Bool
  | .arr _ => true
  | _ => false

/-- The array payload of a value known to be an array. -/
def asArr : JsVal → List JsVal
  | .arr xs => xs
  | _ => []

/-- JS strict equality against the string literal `'success'`. -/
def isSuccessStr : JsVal → Bool
  | .str s => s == "success"
  | _ => false

/-- JS strict equality against the string literal `'Deleted'`
(`q.status === 'Deleted'`). -/
def isDeletedStatus : JsVal → Bool
  | .str s => s == "Deleted"
  | _ => false

/-- JS strict equality against `undefined`. -/
def isUndefined : JsVal → Bool
  | .undefined => true
  | _ => false

/-- Whether property access on this value throws a `TypeError` in JS. -/
def isNullish : JsVal → Bool
  | .null => true
  | .undefined => true
  | _ => false

/-! ## googleSheets.ts — the remote store adapter -/

/-- src/googleSheets.ts `parseLineItems` (lines 5-16).  `parse` is the
`JSON.parse` oracle; a failed parse is the caught exception branch.  The
function returns the raw JS value exactly as the code does (a string that
parses to a non-array leaks through unchanged). -/
def parseLineItems (parse : String → Option JsVal) (items : JsVal) : JsVal :=
  match items with
  | .arr xs => .arr xs
  | .str s =>
    match parse s with
    | some j => j
    | none => .arr []
  | _ => .arr []

/-- `ToInt32`: wrap an integer into the signed 32-bit range,
as JS `x & x` / `x << 5` do. -/
def toInt32 (n : Int) : Int :=
  let m := n % 4294967296
  if m < 2147483648 then m else m - 4294967296

/-- One iteration of the `generateStableId` loop (lines 22-26):
`hash = ((hash << 5) - hash) + char; hash = hash & hash`. -/
def hashStep (h : Int) (c : Nat) : Int :=
  toInt32 (toInt32 (h * 32) - h + (c : Int))

/-- The 32-bit rolling hash accumulated over the code units of a string
(BMP fragment: `charCodeAt` agrees with the code point). -/
def jsHash (s : String) : Int :=
  s.data.foldl (fun h c => hashStep h c.toNat) 0

/-- Digit character for `Number.prototype.toString(36)`. -/
def b36char (d : Nat) : Char :=
  if d < 10 then Char.ofNat (48 + d) else Char.ofNat (87 + d)

/-- Accumulator loop for base-36 rendering; the first argument is fuel, always
called with more fuel than digits (`n / 36 < n` for positive `n`, so `n` steps
always suffice). -/
def base36Go : Nat → Nat → List Char → List Char
  | 0, _, acc => acc
  | fuel + 1, n, acc =>
    if n = 0 then acc else base36Go fuel (n / 36) (b36char (n % 36) :: acc)

/-- `Math.abs(hash).toString(36)` for a natural number. -/
def toBase36 (n : Nat) : String :=
  if n = 0 then "0" else ⟨base36Go (n + 1) n []⟩

/-- src/googleSheets.ts `generateStableId` (lines 19-29). -/
def generateStableId (s : String) : String :=
  if s.length = 0 then "unknown"
  else toBase36 (jsHash s).natAbs

/-- The canonical quotation produced by `normalizeQuote`: the four identity
fields are genuine strings (the code coerces them with `String(...)`), the
remaining fields keep whatever dynamic value the `||`-chains produced. -/
structure QuotationA where
  id : String
  quoteNumber : String
  date : String
  customerName : String
  customerPhone : JsVal
  customerEmail : JsVal
  customerAddress : JsVal
  vehicleMake : JsVal
  vehicleModel : JsVal
  vehicleNo : JsVal
  lineItems : JsVal
  discount : JsVal
  taxRate : JsVal
  notes : JsVal
  status : JsVal
  isOptionQuote : Bool

/-- `String(data.k1 || data.k2 || '').trim()`, the cleanup applied to the
quote number, customer name, date and id fields (lines 34-49). -/
def cleanedStr (data : JsVal) (k1 k2 : String) : String :=
  jsTrim (jsToString (jsOr (getF data k1) (jsOr (getF data k2) (.str ""))))

/-- The date after the ISO `T`-split (lines 38-42), before the
current-date default is applied. -/
def dateNoDefault (data : JsVal) : String :=
  let d0 := cleanedStr data "date" "Date"
  if hasChar d0 'T' then ⟨beforeChar 'T' d0.data⟩ else d0

/-- The missing-identifier test (line 52): empty after trim, or the literal
strings `'undefined'` / `'null'`. -/
def missingIdB (data : JsVal) : Bool :=
  let id0 := cleanedStr data "id" "Id"
  id0 == "" || id0 == "undefined" || id0 == "null"

/-- src/googleSheets.ts `normalizeQuote` (lines 32-78).  `today` stands for
`new Date().toISOString().split('T')[0]`, `parse` for `JSON.parse`. -/
def normalizeQuote (today : String) (parse : String → Option JsVal)
    (data : JsVal) : QuotationA :=
  let quoteNum := cleanedStr data "quoteNumber" "quote_number"
  let customer := cleanedStr data "customerName" "customer_name"
  let dateStr1 := dateNoDefault data
  let dateStr := if dateStr1 = "" then today else dateStr1
  let id0 := cleanedStr data "id" "Id"
  let id :=
    if missingIdB data then
      "gen_" ++ generateStableId
        (lowerStr customer ++ "|" ++ dateStr ++ "|" ++ lowerStr quoteNum)
    else id0
  { id := id
    quoteNumber := quoteNum
    date := dateStr
    customerName := customer
    customerPhone := jsOr (getF data "customerPhone") (jsOr (getF data "customer_phone") (.str ""))
    customerEmail := jsOr (getF data "customerEmail") (jsOr (getF data "customer_email") (.str ""))
    customerAddress := jsOr (getF data "customerAddress") (jsOr (getF data "customer_address") (.str ""))
    vehicleMake := jsOr (getF data "vehicleMake") (jsOr (getF data "vehicle_make") (.str ""))
    vehicleModel := jsOr (getF data "vehicleModel") (jsOr (getF data "vehicle_model") (.str ""))
    vehicleNo := jsOr (getF data "vehicleNo") (jsOr (getF data "vehicle_no") (.str ""))
    lineItems := parseLineItems parse (jsOr (getF data "lineItems") (getF data "line_items"))
    discount := jsToNumber (jsOr (getF data "discount") (.num 0))
    taxRate := jsToNumber
      (if isUndefined (getF data "taxRate") then
        (if isUndefined (getF data "tax_rate") then .num 18 else getF data "tax_rate")
       else getF data "taxRate")
    notes := jsOr (getF data "notes") (.str "")
    status := jsOr (getF data "status") (.str "Draft")
    isOptionQuote := jsTruthy (jsOr (getF data "isOptionQuote") (getF data "is_option_quote")) }

/-- `normalizeQuote` as invoked by `rawData.map(normalizeQuote)`: property
access on a `null`/`undefined` array element throws a `TypeError` in JS. -/
def normalizeQuoteE (today : String) (parse : String → Option JsVal)
    (data : JsVal) : Except String QuotationA :=
  match data with
  | .null => .error "TypeError: cannot read properties of null"
  | .undefined => .error "TypeError: cannot read properties of undefined"
  | d => .ok (normalizeQuote today parse d)

/-- The relevant part of a `fetch` response: `response.ok`, `response.status`
and the awaited `response.text()`. -/
structure HttpResp where
  ok : Bool
  status : Nat
  text : String

/-- The envelope dispatch of `fetchQuotes` (lines 121-128): property access on
a parsed `null` throws; otherwise the three accepted shapes are an object with
`status === 'success'` and a `data` array, a bare array, and an object with a
bare `data` array; anything else yields the empty record list. -/
def jsEnvelope : JsVal → Except String (List JsVal)
  | .null => .error "TypeError: cannot read properties of null"
  | .undefined => .error "TypeError: cannot read properties of undefined"
  | result =>
    if isSuccessStr (getF result "status") && isArr (getF result "data") then
      .ok (asArr (getF result "data"))
    else
      match result with
      | .arr xs => .ok xs
      | r =>
        if isArr (getF r "data") then .ok (asArr (getF r "data")) else .ok []

/-- `rawData.map(normalizeQuote)`: the first throwing element aborts the map. -/
def mapNormalize (today : String) (parse : String → Option JsVal) :
    List JsVal → Except String (List QuotationA)
  | [] => .ok []
  | v :: vs =>
    match normalizeQuoteE today parse v with
    | .error e => .error e
    | .ok q =>
      match mapNormalize today parse vs with
      | .error e => .error e
      | .ok qs => .ok (q :: qs)

/-- src/googleSheets.ts `GoogleSheetsService.fetchQuotes` (lines 90-139) after
the network call: HTTP status check, HTML sniff on the trimmed body, JSON
parse, envelope dispatch, per-record normalization and the strict
status filter.  The outer `catch` only logs and rethrows, so the error cases
are exactly the thrown ones. -/
def fetchQuotesM (today : String) (parse : String → Option JsVal)
    (r : HttpResp) : Except String (List QuotationA) :=
  if !r.ok then .error ("HTTP error! status: " ++ toString r.status)
  else if startsWithChar (jsTrim r.text) '<' then
    .error "Server returned HTML. Ensure the Google Script is deployed with Anyone access."
  else
    match parse r.text with
    | none => .error "Invalid response format from server."
    | some result =>
      match jsEnvelope result with
      | .error e => .error e
      | .ok raw =>
        match mapNormalize today parse raw with
        | .error e => .error e
        | .ok qs => .ok (qs.filter (fun q => !(isDeletedStatus q.status)))

/-- src/googleSheets.ts `GoogleSheetsService.saveQuote` (lines 141-169) after
the POST: `net` is the transport outcome (`.error` = the `fetch`/`text()`
rejected, `.ok text` = the response body).  A parsable body never throws (a
non-success status is only logged); an unparsable body throws exactly when it
starts with `<`; the outer catch rethrows. -/
def saveQuoteM (parse : String → Option JsVal)
    (net : Except String String) : Except String Unit :=
  match net with
  | .error e => .error e
  | .ok text =>
    match parse text with
    | some _ => .ok ()
    | none =>
      if startsWithChar (jsTrim text) '<' then
        .error "Server returned HTML (Permission or Script Error)"
      else .ok ()

/-- Outcome of a single network request. -/
inductive NetOutcome where
  | ok
  | fail
deriving DecidableEq

/-- The soft-delete payload (lines 178-185): the quotation re-sent as a save
with status `'Deleted'` and the identifier duplicated under `Id`/`ID`, plus a
`quote_number` alias. -/
structure SoftPayload where
  quote : QuotationA
  statusOverride : String
  dupId : String
  dupID : String
  dupQuoteNumber : String

/-- Builds the soft-delete payload for a quotation. -/
def softPayload (q : QuotationA) : SoftPayload :=
  { quote := q, statusOverride := "Deleted", dupId := q.id, dupID := q.id
    dupQuoteNumber := q.quoteNumber }

/-- The hard-delete payload (lines 193-200). -/
structure HardPayload where
  idField : String
  idCap : String
  idAllCaps : String
  quoteNumberSnake : String
  quoteNumberCamel : String

/-- Builds the hard-delete payload for a quotation. -/
def hardPayload (q : QuotationA) : HardPayload :=
  { idField := q.id, idCap := q.id, idAllCaps := q.id
    quoteNumberSnake := q.quoteNumber, quoteNumberCamel := q.quoteNumber }

/-- The observable network events of `deleteQuote`, in program order. -/
inductive DelEvent where
  | softAwait (p : SoftPayload)
  | hardFire (p : HardPayload)
  | hardFallbackAwait (p : HardPayload)

/-- src/googleSheets.ts `GoogleSheetsService.deleteQuote` (lines 173-239) as a
function of the two network outcomes: the soft delete is awaited first; on
success the hard delete is fired without awaiting (its rejection is swallowed
by `.catch(() => {})`); on failure the hard delete is awaited as a fallback and
its failure is swallowed by the inner `try`/`catch`.  The returned `Except` is
what the caller observes. -/
def deleteQuoteTrace (q : QuotationA) (soft hard : NetOutcome) :
    List DelEvent × Except String Unit :=
  match soft, hard with
  | .ok, _ =>
    ([.softAwait (softPayload q), .hardFire (hardPayload q)], .ok ())
  | .fail, _ =>
    ([.softAwait (softPayload q), .hardFallbackAwait (hardPayload q)], .ok ())

/-! ## Header.tsx — tombstone ledger, sync orchestrator, delete/save handlers -/

/-- Header.tsx `getQuoteFingerprint` (lines 148-150):
`normalize(date_customerName_quoteNumber)`. -/
def getQuoteFingerprint (q : QuotationA) : String :=
  normStr (q.date ++ "_" ++ q.customerName ++ "_" ++ q.quoteNumber)

/-- The fingerprint as a function of the raw triple, for the algebraic claims. -/
def fpStr (date customer quoteNum : String) : String :=
  normStr (date ++ "_" ++ customer ++ "_" ++ quoteNum)

/-- The predicate of the "ULTIMATE FILTERING" in `fetchRemoteQuotes`
(lines 274-288): backend status check, then the three tombstone set checks,
each sufficient for exclusion. -/
def keepQuote (ids numbers fps : List String) (q : QuotationA) : Bool :=
  if isDeletedStatus q.status then false
  else if ids.contains (normStr q.id) then false
  else if numbers.contains (normStr q.quoteNumber) then false
  else if fps.contains (getQuoteFingerprint q) then false
  else true

/-- `cloudQuotes.filter(...)` of `fetchRemoteQuotes` (line 274). -/
def validQuotes (ids numbers fps : List String) (cloud : List QuotationA) :
    List QuotationA :=
  cloud.filter (keepQuote ids numbers fps)

/-- Set-style insertion into a persisted ledger list (`Set.add`). -/
def addUniq (l : List String) (x : String) : List String :=
  if l.contains x then l else l ++ [x]

/-- The resurrection step of `handleSaveQuote` (lines 369-382): if any of the
three normalized keys is tombstoned, all three keys are filtered out of their
sets and persisted; otherwise the ledger is untouched. -/
def resurrect (q : QuotationA) (ids numbers fps : List String) :
    List String × List String × List String :=
  let qId := normStr q.id
  let qNum := normStr q.quoteNumber
  let qPrint := getQuoteFingerprint q
  if ids.contains qId || numbers.contains qNum || fps.contains qPrint then
    (ids.filter (fun i => !(i == qId)),
     numbers.filter (fun n => !(n == qNum)),
     fps.filter (fun f => !(f == qPrint)))
  else (ids, numbers, fps)

/-- `handleSaveQuote`'s list update (lines 356-363): replace the first
quotation with the same id, else append. -/
def upsert : List QuotationA → QuotationA → List QuotationA
  | [], q => [q]
  | x :: xs, q => if x.id == q.id then q :: xs else x :: upsert xs q

/-- The app state relevant to the reconciliation core: the pause flag
(`pauseSyncRef`), the three persisted tombstone sets (`bl_ids`, `bl_numbers`,
`bl_fingerprints`), the visible list (`quotes` state), the persisted cache
(`tyreQuotes`), and the multiset of in-flight fetches (each carrying the cloud
list its network call will resolve with). -/
structure SysState where
  pause : Bool
  ids : List String
  numbers : List String
  fps : List String
  visible : List QuotationA
  cache : List QuotationA
  inFlight : List (List QuotationA)

/-- The events that drive the reconciliation core: a fetch reaching its
initial guard, an in-flight fetch resolving, `handleDeleteQuote`,
`handleSaveQuote`'s synchronous part, and the pause-clearing timeout /
explicit refresh. -/
inductive Act where
  | startFetch (cloud : List QuotationA)
  | resolve (i : Nat)
  | deleteAct (id : String)
  | saveAct (q : QuotationA)
  | resume

/-- Applying a resolved fetch (lines 270-293): the tombstone sets are re-read
from storage *at application time* and the filtered list is written to both the
visible state and the persisted cache. -/
def applyFetch (cloud : List QuotationA) (s : SysState) : SysState :=
  { s with
    visible := validQuotes s.ids s.numbers s.fps cloud
    cache := validQuotes s.ids s.numbers s.fps cloud }

/-- The synchronous body of `handleDeleteQuote` (lines 419-481): find the
quotation by id (if absent, only the optimistic UI filter runs); otherwise
pause immediately, tombstone id (if nonempty), quote number (if nonempty) and
fingerprint, and remove the id from the visible list and the cache.  The
backend delete is fire-and-forget and does not touch this state. -/
def deleteStep (id : String) (s : SysState) : SysState :=
  match s.visible.find? (fun x => x.id == id) with
  | none =>
    { s with visible := s.visible.filter (fun x => !(x.id == id)) }
  | some qd =>
    let ids1 := if qd.id != "" then addUniq s.ids (normStr qd.id) else s.ids
    let nums1 :=
      if qd.quoteNumber != "" then addUniq s.numbers (normStr qd.quoteNumber)
      else s.numbers
    let fps1 := addUniq s.fps (getQuoteFingerprint qd)
    let updated := s.visible.filter (fun x => !(x.id == id))
    { pause := true, ids := ids1, numbers := nums1, fps := fps1
      visible := updated, cache := updated, inFlight := s.inFlight }

/-- The synchronous body of `handleSaveQuote` (lines 355-389): upsert into the
visible list, resurrect the ledger keys, persist cache and ledger, and pause
sync for the upload. -/
def saveStep (q : QuotationA) (s : SysState) : SysState :=
  let vis := upsert s.visible q
  let r := resurrect q s.ids s.numbers s.fps
  { pause := true, ids := r.1, numbers := r.2.1, fps := r.2.2
    visible := vis, cache := vis, inFlight := s.inFlight }

/-- One step of the reconciliation core.  A fetch whose guard fails is an early
return, i.e. the state is unchanged.  `resolve i` settles the `i`-th in-flight
fetch: the secondary pause guard discards its result; otherwise the result is
applied against the ledger read at that moment. -/
def stepA : Act → SysState → SysState
  | .startFetch cloud, s =>
    if s.pause then s else { s with inFlight := s.inFlight ++ [cloud] }
  | .resolve i, s =>
    match s.inFlight.get? i with
    | none => s
    | some cloud =>
      let s' := { s with inFlight := s.inFlight.eraseIdx i }
      if s.pause then s' else applyFetch cloud s'
  | .deleteAct id, s => deleteStep id s
  | .saveAct q, s => saveStep q s
  | .resume, s => { s with pause := false }

/-- Run a sequence of events. -/
def runActs (acts : List Act) (s : SysState) : SysState :=
  acts.foldl (fun st a => stepA a st) s

/-- No event in the list re-saves (resurrects) the given normalized id. -/
def noResurrectB (nid : String) (acts : List Act) : Bool :=
  acts.all fun a =>
    match a with
    | .saveAct q => !(normStr q.id == nid)
    | _ => true

/-- The synchronous actions of `handleDeleteQuote`, in source order
(lines 431, 434-448, 455-456, 459, 469). -/
inductive HAct where
  | setPause
  | writeLedger
  | updateUi
  | writeCache
  | callNetworkDelete
deriving DecidableEq

/-- `handleDeleteQuote`'s action order as written in the source. -/
def handlerSeq : List HAct :=
  [.setPause, .writeLedger, .updateUi, .writeCache, .callNetworkDelete]

/-! ## SavedQuotesList.tsx — the displayed grand total -/

/-- A canonical line item (src/types.ts lines 2-7); the amounts are rationals,
the exact-arithmetic reading of the JS numbers. -/
structure LineItemB where
  itemId : String
  description : String
  quantity : ℚ
  unitAmount : ℚ

/-- The fields of a quotation that `QuoteCard`'s total computation reads. -/
structure QuotationB where
  lineItems : List LineItemB
  discount : ℚ
  isOptionQuote : Bool

/-- `Math.round` in exact arithmetic: round half toward positive infinity. -/
def jsRound (x : ℚ) : Int :=
  ⌊x + 1 / 2⌋

/-- `QuoteCard`'s `grossTotal` (SavedQuotesList.tsx line 26):
`reduce((acc, item) => acc + item.quantity * item.unitAmount, 0)`. -/
def grossTotal (q : QuotationB) : ℚ :=
  q.lineItems.foldl (fun acc item => acc + item.quantity * item.unitAmount) 0

/-- `QuoteCard`'s `grandTotal` (lines 27-28). -/
def grandTotal (q : QuotationB) : Int :=
  jsRound (grossTotal q - q.discount)

/-- What the card's total slot shows (lines 83-89): `none` renders the
"Multiple Options" label of an option quote, `some t` renders the single
grand total. -/
def displayedTotal (q : QuotationB) : Option Int :=
  if q.isOptionQuote then none else some (grandTotal q)

/-! ## Auxiliary predicates used by the statements -/

/-- Whether an `Except` computation models a thrown error. -/
def isErr {α : Type} : Except String α → Bool
  | .error _ => true
  | .ok _ => false

/-- Whether a value is a JS string. -/
def isStrB : JsVal → Bool
  | .str _ => true
  | _ => false

/-- Head (if any) is not whitespace. -/
def headNoWsB : List Char → Bool
  | [] => true
  | c :: _ => !isWsChar c

/-- Last character (if any) is not whitespace. -/
def lastNoWsB : List Char → Bool
  | [] => true
  | [c] => !isWsChar c
  | _ :: c :: cs => lastNoWsB (c :: cs)

/-- No two adjacent whitespace characters. -/
def noRunB : List Char → Bool
  | c :: d :: cs => !(isWsChar c && isWsChar d) && noRunB (d :: cs)
  | _ => true

/-- Every whitespace character is a plain space. -/
def spacesOnlyB (l : List Char) : Bool :=
  l.all fun c => !isWsChar c || c == ' '

/-- Every character is fixed by lowercasing. -/
def lowerFixedB (l : List Char) : Bool :=
  l.all fun c => toLowerCh c == c

/-- The normal forms of `normStr`: lowercase, no leading/trailing whitespace,
all whitespace is single plain spaces. -/
def normalB (l : List Char) : Bool :=
  lowerFixedB l && headNoWsB l && lastNoWsB l && spacesOnlyB l && noRunB l

/-- A "reasonable" fingerprint component: already in normal form and free of
the `_` separator used by `getQuoteFingerprint`. -/
def tameB (s : String) : Bool :=
  (normStr s == s) && !(hasChar s '_')

/-! ## General lemmas -/

/-- `List.contains` agrees with membership for strings. -/
theorem contains_iff_mem_str (l : List String) (a : String) :
    l.contains a = true ↔ a ∈ l := by
  simp [List.contains, List.elem_iff]

/-- An element satisfying the predicate guarantees `find?` succeeds, and the
found element satisfies the predicate. -/
theorem find?_exists_of_mem {α : Type} {p : α → Bool} {l : List α} {a : α}
    (hm : a ∈ l) (hp : p a = true) :
    ∃ x, l.find? p = some x ∧ p x = true := by
  induction l with
  | nil => cases hm
  | cons b l ih =>
    by_cases hb : p b = true
    · exact ⟨b, by simp [List.find?, hb], hb⟩
    · rcases List.mem_cons.mp hm with rfl | hm'
      · exact absurd hp hb
      · rcases ih hm' with ⟨x, hx, hpx⟩
        refine ⟨x, ?_, hpx⟩
        have hb' : p b = false := by
          revert hb
          cases p b <;> simp
        simpa [List.find?, hb'] using hx

/-- `addUniq` contains the inserted key. -/
theorem mem_addUniq_self (l : List String) (x : String) : x ∈ addUniq l x := by
  unfold addUniq
  split
  · exact (contains_iff_mem_str _ _).mp (by assumption)
  · simp

/-- `addUniq` keeps existing members. -/
theorem mem_addUniq_of_mem (l : List String) (x y : String) (h : y ∈ l) :
    y ∈ addUniq l x := by
  unfold addUniq
  split
  · exact h
  · simp [h]

/-- The synchronous delete handler tombstones the normalized id and removes
the quotation from the visible list. -/
theorem deleteStep_tombstones (s : SysState) (q : QuotationA)
    (hv : q ∈ s.visible) (hid : q.id ≠ "") :
    normStr q.id ∈ (deleteStep q.id s).ids ∧ q ∉ (deleteStep q.id s).visible := by
  have hpq : (q.id == q.id) = true := beq_iff_eq.mpr rfl
  obtain ⟨qd, hfind, hpd⟩ := find?_exists_of_mem (p := fun x => x.id == q.id) hv hpq
  have hqd : qd.id = q.id := beq_iff_eq.mp hpd
  constructor
  · have hne : (qd.id != "") = true := by
      rw [hqd]
      simpa [bne_iff_ne] using hid
    simp only [deleteStep, hfind, hne, if_pos]
    rw [hqd]
    exact mem_addUniq_self _ _
  · intro hmem
    simp only [deleteStep, hfind] at hmem
    have := (List.mem_filter.mp hmem).2
    simp [hpq] at this

/-- Fold of the per-item totals equals the accumulator plus the mapped sum. -/
theorem foldl_qty_amount (l : List LineItemB) (a : ℚ) :
    l.foldl (fun acc item => acc + item.quantity * item.unitAmount) a
      = a + (l.map fun item => item.quantity * item.unitAmount).sum := by
  induction l generalizing a with
  | nil => simp
  | cons x xs ih => simp [List.foldl_cons, ih, add_assoc]

/-- The filter predicate of `fetchRemoteQuotes`, unfolded. -/
theorem keepQuote_iff (ids numbers fps : List String) (q : QuotationA) :
    keepQuote ids numbers fps q = true ↔
      isDeletedStatus q.status = false ∧ normStr q.id ∉ ids
      ∧ normStr q.quoteNumber ∉ numbers ∧ getQuoteFingerprint q ∉ fps := by
  unfold keepQuote
  split_ifs with h1 h2 h3 h4
  · simp [h1]
  · simp [(contains_iff_mem_str _ _).mp h2]
  · simp [(contains_iff_mem_str _ _).mp h3]
  · simp [(contains_iff_mem_str _ _).mp h4]
  · have h1' : isDeletedStatus q.status = false := by
      revert h1
      cases isDeletedStatus q.status <;> simp
    rw [contains_iff_mem_str] at h2 h3 h4
    simp [h1', h2, h3, h4]

/-! ## Claim C1 -/

/-- C1: a remote record survives the sync filter (and lands in both the applied
visible list and the persisted cache) iff its status is not `'Deleted'` and
none of its normalized id, normalized quote number, or fingerprint belongs to
the corresponding tombstone set; membership of any one of the three excludes
it. -/
theorem c1_tombstone_filter (ids numbers fps : List String)
    (cloud : List QuotationA) (q : QuotationA) :
    (q ∈ validQuotes ids numbers fps cloud ↔
      q ∈ cloud ∧ isDeletedStatus q.status = false
      ∧ normStr q.id ∉ ids ∧ normStr q.quoteNumber ∉ numbers
      ∧ getQuoteFingerprint q ∉ fps)
    ∧ (∀ s : SysState,
        (applyFetch cloud s).visible = validQuotes s.ids s.numbers s.fps cloud
        ∧ (applyFetch cloud s).cache = (applyFetch cloud s).visible) := by
  constructor
  · rw [validQuotes, List.mem_filter, keepQuote_iff]
  · intro s
    exact ⟨rfl, rfl⟩

/-! ## Claim C5 -/

/-- C5 counterexample: an HTML response body to a save (a protocol-level
anomaly, not a transport failure) makes `saveQuote` throw, contradicting the
claim that saves tolerate an HTML body without throwing. -/
theorem c5_counterexample :
    isErr (saveQuoteM (fun _ => none) (.ok "<html><body>error</body></html>")) = true
    ∧ startsWithChar (jsTrim "<html><body>error</body></html>") '<' = true := by
  exact ⟨by decide, by decide⟩

/-- C5 (amended): `saveQuote` throws iff the POST transport fails, or the
response body is unparsable *and* starts with `<` (HTML); any parsable body —
including a protocol-level non-success status — and any unparsable non-HTML
body are tolerated without throwing. -/
theorem c5_saveQuote_amended (parse : String → Option JsVal)
    (net : Except String String) :
    isErr (saveQuoteM parse net) = true ↔
      (∃ e, net = .error e)
      ∨ (∃ t, net = .ok t ∧ parse t = none
          ∧ startsWithChar (jsTrim t) '<' = true) := by
  cases net with
  | error e => simp [saveQuoteM, isErr]
  | ok t =>
    cases hp : parse t with
    | some j => simp [saveQuoteM, hp, isErr]
    | none =>
      by_cases hs : startsWithChar (jsTrim t) '<' = true
      · simp [saveQuoteM, hp, hs, isErr]
      · simp [saveQuoteM, hp, isErr, hs]

/-! ## Claim C6 -/

/-- C6: `deleteQuote` always awaits the soft delete first (a save carrying
status `'Deleted'` and the id duplicated under several key casings); when it
succeeds the hard delete is fired without awaiting and its failure is
swallowed, when it fails the hard delete is awaited as fallback with its
failure swallowed — so no combination of outcomes propagates an error, and the
local delete handler's state (tombstone + removal) is independent of the
backend outcome. -/
theorem c6_delete_best_effort (q : QuotationA) (soft hard : NetOutcome) :
    (deleteQuoteTrace q soft hard).2 = .ok ()
    ∧ (deleteQuoteTrace q soft hard).1.head? = some (.softAwait (softPayload q))
    ∧ (softPayload q).statusOverride = "Deleted"
    ∧ (softPayload q).dupId = q.id
    ∧ (softPayload q).dupID = q.id
    ∧ (softPayload q).dupQuoteNumber = q.quoteNumber
    ∧ (soft = .ok →
        (deleteQuoteTrace q soft hard).1
          = [.softAwait (softPayload q), .hardFire (hardPayload q)])
    ∧ (soft = .fail →
        (deleteQuoteTrace q soft hard).1
          = [.softAwait (softPayload q), .hardFallbackAwait (hardPayload q)])
    ∧ (∀ s : SysState, q ∈ s.visible → q.id ≠ "" →
        normStr q.id ∈ (deleteStep q.id s).ids
        ∧ q ∉ (deleteStep q.id s).visible) := by
  refine ⟨?_, ?_, rfl, rfl, rfl, rfl, ?_, ?_, ?_⟩
  · cases soft <;> rfl
  · cases soft <;> rfl
  · intro h; subst h; rfl
  · intro h; subst h; rfl
  · intro s hv hid; exact deleteStep_tombstones s q hv hid

/-! ## Claim C9 -/

/-- C9: for a non-option quote the displayed total is
`round(sum(quantity * unitAmount) - discount)`; for an option quote no single
grand total is displayed. -/
theorem c9_displayed_grand_total (q : QuotationB) :
    (q.isOptionQuote = false →
      displayedTotal q
        = some (jsRound
            ((q.lineItems.map fun item => item.quantity * item.unitAmount).sum
              - q.discount)))
    ∧ (q.isOptionQuote = true → displayedTotal q = none) := by
  constructor
  · intro h
    simp [displayedTotal, h, grandTotal, grossTotal, foldl_qty_amount]
  · intro h
    simp [displayedTotal, h]

/-- C9 witness: a concrete non-option quote (one line of 2 × 1000 with a 0.5
discount) displays 2000, and a concrete option quote displays no total. -/
theorem c9_witness :
    displayedTotal ⟨[⟨"1", "Tyre", 2, 1000⟩], 1 / 2, false⟩ = some 2000
    ∧ displayedTotal ⟨[⟨"1", "Tyre", 2, 1000⟩], 1 / 2, true⟩ = none := by
  constructor
  · have h := (c9_displayed_grand_total ⟨[⟨"1", "Tyre", 2, 1000⟩], 1 / 2, false⟩).1 rfl
    rw [h]
    norm_num [jsRound]
  · exact (c9_displayed_grand_total ⟨[⟨"1", "Tyre", 2, 1000⟩], 1 / 2, true⟩).2 rfl

/-! ## Claim C10 -/

/-- C10: normalization is total on the line-items field — an array is kept
as-is, a string that fails to parse yields the empty list, any non-array
non-string value yields the empty list, and `normalizeQuote` never throws on a
record whatever its line-items value is. -/
theorem c10_lineitems_total (parse : String → Option JsVal) (v : JsVal) :
    (∀ xs, v = .arr xs → parseLineItems parse v = .arr xs)
    ∧ (∀ s, v = .str s → parse s = none → parseLineItems parse v = .arr [])
    ∧ (isArr v = false → isStrB v = false → parseLineItems parse v = .arr [])
    ∧ (∀ today data, isNullish data = false →
        ∃ q, normalizeQuoteE today parse data = .ok q) := by
    refine ⟨?_, ?_, ?_, ?_⟩
    · rintro xs rfl; rfl
    · rintro s rfl h; simp [parseLineItems, h]
    · intro h1 h2
      cases v <;> simp_all [parseLineItems, isArr, isStrB]
    · intro today data h
      cases data with
      | null => simp [isNullish] at h
      | undefined => simp [isNullish] at h
      | nan => exact ⟨_, rfl⟩
      | bool b => exact ⟨_, rfl⟩
      | num n => exact ⟨_, rfl⟩
      | str s => exact ⟨_, rfl⟩
      | arr xs => exact ⟨_, rfl⟩
      | obj fs => exact ⟨_, rfl⟩

/-- C10 witness: concrete instances — an unparsable line-items string, a
numeric line-items value, and a record with numeric line-items that still
normalizes without an error. -/
theorem c10_witness :
    parseLineItems (fun _ => none) (.str "not json") = .arr []
    ∧ parseLineItems (fun _ => none) (.num 3) = .arr []
    ∧ ∃ q, normalizeQuoteE "2024-01-01" (fun _ => none)
        (.obj [("lineItems", .num 7)]) = .ok q := by
  refine ⟨(c10_lineitems_total (fun _ => none) (.str "not json")).2.1 "not json" rfl rfl,
          (c10_lineitems_total (fun _ => none) (.num 3)).2.2.1 rfl rfl,
          (c10_lineitems_total (fun _ => none) (.num 0)).2.2.2 "2024-01-01"
            (.obj [("lineItems", .num 7)]) rfl⟩

/-- C6 witness: concrete quotation, soft delete succeeds and hard delete
fails — the call returns without error and the local handler state stays
deleted. -/
theorem c6_witness :
    (deleteQuoteTrace
        ⟨"A1", "N1", "2024-01-05", "Ravi", .str "", .str "", .str "", .str "",
          .str "", .str "", .arr [], .num 0, .num 18, .str "", .str "Draft",
          false⟩ .ok .fail).2 = .ok ()
    ∧ normStr "A1" ∈ (deleteStep "A1"
        ⟨false, [], [], [],
          [⟨"A1", "N1", "2024-01-05", "Ravi", .str "", .str "", .str "",
            .str "", .str "", .str "", .arr [], .num 0, .num 18, .str "",
            .str "Draft", false⟩],
          [], []⟩).ids := by
  have h := c6_delete_best_effort
    ⟨"A1", "N1", "2024-01-05", "Ravi", .str "", .str "", .str "", .str "",
      .str "", .str "", .arr [], .num 0, .num 18, .str "", .str "Draft",
      false⟩ .ok .fail
  exact ⟨h.1,
    (h.2.2.2.2.2.2.2.2
      ⟨false, [], [], [],
        [⟨"A1", "N1", "2024-01-05", "Ravi", .str "", .str "", .str "",
          .str "", .str "", .str "", .arr [], .num 0, .num 18, .str "",
          .str "Draft", false⟩],
        [], []⟩ (by simp) (by decide)).1⟩

/-! ## Claim C7 -/

/-- `contains` is false exactly on non-members. -/
theorem contains_eq_false_iff (l : List String) (a : String) :
    l.contains a = false ↔ a ∉ l := by
  rw [← contains_iff_mem_str]
  cases l.contains a <;> simp

/-- Filtering out a key removes it. -/
theorem not_mem_filter_ne (l : List String) (a : String) :
    a ∉ l.filter fun i => !(i == a) := by
  intro h
  have := (List.mem_filter.mp h).2
  simp at this

/-- C7: after `handleSaveQuote`'s synchronous part, none of the quotation's
normalized id, normalized quote number, or fingerprint remains in the
corresponding (persisted) tombstone set, so a subsequent refresh that returns
the quotation (with a non-'Deleted' status) keeps it in the visible list. -/
theorem c7_resurrection (s : SysState) (q : QuotationA) :
    (saveStep q s).ids.contains (normStr q.id) = false
    ∧ (saveStep q s).numbers.contains (normStr q.quoteNumber) = false
    ∧ (saveStep q s).fps.contains (getQuoteFingerprint q) = false
    ∧ (isDeletedStatus q.status = false →
        ∀ cloud, q ∈ cloud →
          q ∈ validQuotes (saveStep q s).ids (saveStep q s).numbers
              (saveStep q s).fps cloud) := by
  have hmain : (saveStep q s).ids.contains (normStr q.id) = false
      ∧ (saveStep q s).numbers.contains (normStr q.quoteNumber) = false
      ∧ (saveStep q s).fps.contains (getQuoteFingerprint q) = false := by
    by_cases hc : (s.ids.contains (normStr q.id)
        || s.numbers.contains (normStr q.quoteNumber)
        || s.fps.contains (getQuoteFingerprint q)) = true
    · refine ⟨?_, ?_, ?_⟩ <;>
        · simp only [saveStep, resurrect, hc, if_pos]
          exact (contains_eq_false_iff _ _).mpr (not_mem_filter_ne _ _)
    · have h3 : s.ids.contains (normStr q.id) = false
          ∧ s.numbers.contains (normStr q.quoteNumber) = false
          ∧ s.fps.contains (getQuoteFingerprint q) = false := by
        revert hc
        cases s.ids.contains (normStr q.id) <;>
          cases s.numbers.contains (normStr q.quoteNumber) <;>
          cases s.fps.contains (getQuoteFingerprint q) <;> simp
      have m1 : normStr q.id ∉ s.ids := (contains_eq_false_iff _ _).mp h3.1
      have m2 : normStr q.quoteNumber ∉ s.numbers :=
        (contains_eq_false_iff _ _).mp h3.2.1
      have m3 : getQuoteFingerprint q ∉ s.fps :=
        (contains_eq_false_iff _ _).mp h3.2.2
      simp [saveStep, resurrect, m1, m2, m3]
  refine ⟨hmain.1, hmain.2.1, hmain.2.2, ?_⟩
  intro hst cloud hm
  rw [validQuotes, List.mem_filter]
  exact ⟨hm, (keepQuote_iff _ _ _ _).mpr
    ⟨hst, (contains_eq_false_iff _ _).mp hmain.1,
      (contains_eq_false_iff _ _).mp hmain.2.1,
      (contains_eq_false_iff _ _).mp hmain.2.2⟩⟩

/-- C7 witness: a concrete previously deleted identity (all three keys
tombstoned) is removed from all three sets by a re-save and survives the next
refresh filter. -/
theorem c7_witness :
    (saveStep
        ⟨"X1", "N1", "2024-01-05", "Ravi", .str "", .str "", .str "", .str "",
          .str "", .str "", .arr [], .num 0, .num 18, .str "", .str "Draft",
          false⟩
        ⟨false, ["x1"], ["n1"], ["2024-01-05_ravi_n1"], [], [], []⟩).ids.contains
      (normStr "X1") = false
    ∧ (⟨"X1", "N1", "2024-01-05", "Ravi", .str "", .str "", .str "", .str "",
          .str "", .str "", .arr [], .num 0, .num 18, .str "", .str "Draft",
          false⟩ : QuotationA)
        ∈ validQuotes
          (saveStep
            ⟨"X1", "N1", "2024-01-05", "Ravi", .str "", .str "", .str "",
              .str "", .str "", .str "", .arr [], .num 0, .num 18, .str "",
              .str "Draft", false⟩
            ⟨false, ["x1"], ["n1"], ["2024-01-05_ravi_n1"], [], [], []⟩).ids
          (saveStep
            ⟨"X1", "N1", "2024-01-05", "Ravi", .str "", .str "", .str "",
              .str "", .str "", .str "", .arr [], .num 0, .num 18, .str "",
              .str "Draft", false⟩
            ⟨false, ["x1"], ["n1"], ["2024-01-05_ravi_n1"], [], [], []⟩).numbers
          (saveStep
            ⟨"X1", "N1", "2024-01-05", "Ravi", .str "", .str "", .str "",
              .str "", .str "", .str "", .arr [], .num 0, .num 18, .str "",
              .str "Draft", false⟩
            ⟨false, ["x1"], ["n1"], ["2024-01-05_ravi_n1"], [], [], []⟩).fps
          [⟨"X1", "N1", "2024-01-05", "Ravi", .str "", .str "", .str "",
            .str "", .str "", .str "", .arr [], .num 0, .num 18, .str "",
            .str "Draft", false⟩] := by
  have h := c7_resurrection
    ⟨false, ["x1"], ["n1"], ["2024-01-05_ravi_n1"], [], [], []⟩
    ⟨"X1", "N1", "2024-01-05", "Ravi", .str "", .str "", .str "", .str "",
      .str "", .str "", .arr [], .num 0, .num 18, .str "", .str "Draft",
      false⟩
  exact ⟨h.1, h.2.2.2 rfl _ (by simp)⟩

/-! ## Claim C3 -/

set_option maxRecDepth 10000 in
/-- C3 counterexample, three parts against the claim as stated:
(1) a record with no date field gets its identifier from the fetch-day default
date, so two sessions on different days produce different generated
identifiers — the identifier is not a function of the stored content triple
alone; (2) the date component is not lower-cased before hashing (only customer
name and quote number are); (3) a non-placeholder identifier is trimmed, not
kept byte-for-byte unchanged. -/
theorem c3_counterexample :
    (normalizeQuote "2024-01-01" (fun _ => none)
        (.obj [("customerName", .str "a"), ("quoteNumber", .str "1")])).id
      ≠ (normalizeQuote "2024-01-02" (fun _ => none)
        (.obj [("customerName", .str "a"), ("quoteNumber", .str "1")])).id
    ∧ (normalizeQuote "2024-01-01" (fun _ => none)
        (.obj [("customerName", .str "A"), ("quoteNumber", .str "Q"),
               ("date", .str "JAN-5")])).id
      = "gen_" ++ generateStableId "a|JAN-5|q"
    ∧ "gen_" ++ generateStableId "a|JAN-5|q"
      ≠ "gen_" ++ generateStableId "a|jan-5|q"
    ∧ (normalizeQuote "2024-01-01" (fun _ => none)
        (.obj [("id", .str " X7 "), ("customerName", .str "a")])).id = "X7"
    ∧ (" X7 " : String) ≠ "X7" := by
  refine ⟨by decide, by decide, by decide, by decide, by decide⟩

/-- C3 (amended): a record whose identifier is missing/placeholder gets
`gen_` + base-36 of the absolute 32-bit rolling hash of
`customerName|date|quoteNumber` with customer name and quote number
lower-cased, where `date` is the normalized date field (defaulting to the
fetch day when absent) — hence the identifier is a deterministic function of
the normalized content triple, and is session-independent whenever the record
carries a date; a record with a non-placeholder identifier keeps its (trimmed,
string-coerced) identifier. -/
theorem c3_generated_id_amended (today today2 : String)
    (parse parse2 : String → Option JsVal) (data : JsVal) :
    (missingIdB data = true →
      (normalizeQuote today parse data).id
        = "gen_" ++ generateStableId
            (lowerStr (normalizeQuote today parse data).customerName ++ "|"
              ++ (normalizeQuote today parse data).date ++ "|"
              ++ lowerStr (normalizeQuote today parse data).quoteNumber))
    ∧ (dateNoDefault data ≠ "" →
        (normalizeQuote today parse data).id
          = (normalizeQuote today2 parse2 data).id)
    ∧ (missingIdB data = false →
        (normalizeQuote today parse data).id = cleanedStr data "id" "Id") := by
  refine ⟨?_, ?_, ?_⟩
  · intro h
    simp [normalizeQuote, h]
  · intro h
    by_cases hm : missingIdB data = true
    · simp [normalizeQuote, hm, h]
    · simp [normalizeQuote, hm]
  · intro h
    simp [normalizeQuote, h]

/-- C3 witness: the spec's own scenario record (`Ravi`, ISO date, `Q-1`)
generates the same identifier in two sessions with different fetch days and
different parse oracles, and a record arriving with a backend identifier keeps
its cleaned identifier. -/
theorem c3_witness :
    (normalizeQuote "2099-12-31" (fun _ => none)
        (.obj [("customerName", .str "Ravi"),
               ("date", .str "2024-01-05T10:00:00Z"),
               ("quoteNumber", .str "Q-1")])).id
      = (normalizeQuote "1970-01-01" (fun _ => some (.arr []))
        (.obj [("customerName", .str "Ravi"),
               ("date", .str "2024-01-05T10:00:00Z"),
               ("quoteNumber", .str "Q-1")])).id
    ∧ (normalizeQuote "2099-12-31" (fun _ => none)
        (.obj [("id", .str "abc123"), ("customerName", .str "Ravi")])).id
      = cleanedStr (.obj [("id", .str "abc123"), ("customerName", .str "Ravi")])
          "id" "Id" := by
  exact ⟨(c3_generated_id_amended "2099-12-31" "1970-01-01" (fun _ => none)
            (fun _ => some (.arr []))
            (.obj [("customerName", .str "Ravi"),
                   ("date", .str "2024-01-05T10:00:00Z"),
                   ("quoteNumber", .str "Q-1")])).2.1 (by decide),
         (c3_generated_id_amended "2099-12-31" "1970-01-01" (fun _ => none)
            (fun _ => some (.arr []))
            (.obj [("id", .str "abc123"),
                   ("customerName", .str "Ravi")])).2.2 (by decide)⟩

/-! ## Claim C4 -/

/-- The envelope dispatch only throws on a parsed `null`/`undefined`. -/
theorem jsEnvelope_err_iff (j : JsVal) : isErr (jsEnvelope j) = isNullish j := by
  cases j with
  | null => rfl
  | undefined => rfl
  | nan => rfl
  | bool b => rfl
  | num n => rfl
  | str s => rfl
  | arr xs => rfl
  | obj fs =>
    simp only [jsEnvelope, isNullish]
    split_ifs <;> simp [isErr]

/-- On any non-nullish parsed value the envelope dispatch succeeds. -/
theorem jsEnvelope_ok_of_not_nullish (j : JsVal) (h : isNullish j = false) :
    ∃ raw, jsEnvelope j = .ok raw := by
  have he := jsEnvelope_err_iff j
  rw [h] at he
  cases hjv : jsEnvelope j with
  | error e => rw [hjv] at he; simp [isErr] at he
  | ok raw => exact ⟨raw, rfl⟩

/-- Mapping normalization over a list whose head is not nullish. -/
theorem mapNormalize_cons_ok (today : String) (parse : String → Option JsVal)
    (v : JsVal) (vs : List JsVal) (h : isNullish v = false) :
    mapNormalize today parse (v :: vs)
      = match mapNormalize today parse vs with
        | .error e => .error e
        | .ok qs => .ok (normalizeQuote today parse v :: qs) := by
  cases v <;> simp_all [mapNormalize, normalizeQuoteE, isNullish]

/-- The mapped normalization throws exactly when some raw record is
`null`/`undefined`. -/
theorem mapNormalize_isErr (today : String) (parse : String → Option JsVal)
    (l : List JsVal) :
    isErr (mapNormalize today parse l) = l.any fun e => isNullish e := by
  induction l with
  | nil => rfl
  | cons v vs ih =>
    cases hv : isNullish v with
    | true =>
      cases v <;> simp_all [isNullish, mapNormalize, normalizeQuoteE, isErr]
    | false =>
      rw [mapNormalize_cons_ok today parse v vs hv]
      cases hm : mapNormalize today parse vs with
      | error e =>
        have hany : vs.any (fun e => isNullish e) = true := by
          rw [← ih, hm]; rfl
        simp [isErr, List.any_cons, hany]
      | ok qs =>
        have hany : vs.any (fun e => isNullish e) = false := by
          rw [← ih, hm]; rfl
        simp [isErr, List.any_cons, hany, hv]

/-- C4 counterexample: the body `"null"` is valid JSON, the HTTP status is ok
and the body does not start with `<`, yet `fetchQuotes` throws (property
access on the parsed `null` envelope raises a `TypeError` that the outer catch
rethrows) — so "throws iff non-2xx, HTML, or invalid JSON" is false. -/
theorem c4_counterexample :
    isErr (fetchQuotesM "2024-01-01"
        (fun s => if s = "null" then some JsVal.null else none)
        { ok := true, status := 200, text := "null" }) = true
    ∧ ({ ok := true, status := 200, text := "null" } : HttpResp).ok = true
    ∧ startsWithChar (jsTrim "null") '<' = false
    ∧ ((fun s => if s = "null" then some JsVal.null else none) "null").isSome
        = true := by
  refine ⟨by decide, rfl, by decide, by decide⟩

/-- C4 (amended): `fetchQuotes` throws iff the HTTP status is not ok, or the
trimmed body starts with `<`, or the body fails to parse, or the body parses
to `null`/`undefined`, or the extracted raw-record list contains a
`null`/`undefined` element; the three accepted envelope shapes (success
object with data array, bare array, object with bare data array) each yield
their record array, and on the throw-free path the records are normalized
field-by-field and filtered by status. -/
theorem c4_fetch_errors_amended (today : String)
    (parse : String → Option JsVal) (r : HttpResp) :
    (isErr (fetchQuotesM today parse r) = true ↔
      r.ok = false ∨ startsWithChar (jsTrim r.text) '<' = true
      ∨ parse r.text = none
      ∨ (∃ j, parse r.text = some j ∧ isNullish j = true)
      ∨ (∃ j raw, parse r.text = some j ∧ jsEnvelope j = .ok raw
          ∧ raw.any (fun e => isNullish e) = true))
    ∧ (∀ fs xs, lookupF fs "status" = .str "success" →
        lookupF fs "data" = .arr xs → jsEnvelope (.obj fs) = .ok xs)
    ∧ (∀ xs, jsEnvelope (.arr xs) = .ok xs)
    ∧ (∀ fs xs, lookupF fs "data" = .arr xs → jsEnvelope (.obj fs) = .ok xs)
    ∧ (∀ j raw qs, r.ok = true → startsWithChar (jsTrim r.text) '<' = false →
        parse r.text = some j → jsEnvelope j = .ok raw →
        mapNormalize today parse raw = .ok qs →
        fetchQuotesM today parse r
          = .ok (qs.filter fun q => !(isDeletedStatus q.status))) := by
  refine ⟨?_, ?_, ?_, ?_, ?_⟩
  · cases hok : r.ok with
    | false => simp [fetchQuotesM, hok, isErr]
    | true =>
      by_cases hs : startsWithChar (jsTrim r.text) '<' = true
      · simp [fetchQuotesM, hok, hs, isErr]
      · have hs' : startsWithChar (jsTrim r.text) '<' = false := by
          revert hs
          cases startsWithChar (jsTrim r.text) '<' <;> simp
        cases hp : parse r.text with
        | none => simp [fetchQuotesM, hok, hs', hp, isErr]
        | some j =>
          cases hn : isNullish j with
          | true =>
            have hje : isErr (jsEnvelope j) = true := by
              rw [jsEnvelope_err_iff, hn]
            cases hjv : jsEnvelope j with
            | ok raw => rw [hjv] at hje; simp [isErr] at hje
            | error e =>
              have heq : fetchQuotesM today parse r = .error e := by
                simp [fetchQuotesM, hok, hs', hp, hjv]
              rw [heq]
              exact iff_of_true rfl
                (Or.inr (Or.inr (Or.inr (Or.inl ⟨j, rfl, hn⟩))))
          | false =>
            obtain ⟨raw, hraw⟩ := jsEnvelope_ok_of_not_nullish j hn
            cases hm : mapNormalize today parse raw with
            | error e =>
              have hany : raw.any (fun e => isNullish e) = true := by
                rw [← mapNormalize_isErr today parse raw, hm]; rfl
              have heq : fetchQuotesM today parse r = .error e := by
                simp [fetchQuotesM, hok, hs', hp, hraw, hm]
              rw [heq]
              exact iff_of_true rfl
                (Or.inr (Or.inr (Or.inr (Or.inr ⟨j, raw, rfl, hraw, hany⟩))))
            | ok qs =>
              have hany : raw.any (fun e => isNullish e) = false := by
                rw [← mapNormalize_isErr today parse raw, hm]; rfl
              have heq : fetchQuotesM today parse r
                  = .ok (qs.filter fun q => !(isDeletedStatus q.status)) := by
                simp [fetchQuotesM, hok, hs', hp, hraw, hm]
              rw [heq]
              apply iff_of_false (by simp [isErr])
              rintro (h1 | h2 | h3 | ⟨j', hj', hn'⟩ | ⟨j', raw', hj', hraw', hany'⟩)
              · cases h1
              · rw [hs'] at h2; cases h2
              · cases h3
              · injection hj' with e
                subst e
                rw [hn] at hn'
                cases hn'
              · injection hj' with e
                subst e
                rw [hraw] at hraw'
                injection hraw' with e2
                subst e2
                rw [hany] at hany'
                cases hany'
  · intro fs xs h1 h2
    simp [jsEnvelope, getF, h1, h2, isSuccessStr, isArr, asArr]
  · intro xs
    rfl
  · intro fs xs h2
    by_cases h1 : isSuccessStr (lookupF fs "status") = true
    · simp [jsEnvelope, getF, h1, h2, isArr, asArr]
    · have h1' : isSuccessStr (lookupF fs "status") = false := by
        revert h1
        cases isSuccessStr (lookupF fs "status") <;> simp
      simp [jsEnvelope, getF, h1', h2, isArr, asArr]
  · intro j raw qs h1 h2 hp hje hm
    simp [fetchQuotesM, h1, h2, hp, hje, hm]

/-- C4 witness: the three envelope shapes at concrete values, and a concrete
throw-free fetch of a bare-array body producing the normalized, filtered
(empty) list. -/
theorem c4_witness :
    jsEnvelope (.obj [("status", .str "success"), ("data", .arr [.num 1])])
      = .ok [.num 1]
    ∧ jsEnvelope (.arr [.str "x"]) = .ok [.str "x"]
    ∧ jsEnvelope (.obj [("data", .arr [])]) = .ok []
    ∧ fetchQuotesM "2024-01-01" (fun _ => some (.arr []))
        { ok := true, status := 200, text := "[]" }
      = .ok (List.filter (fun q => !(isDeletedStatus q.status)) []) := by
  refine ⟨(c4_fetch_errors_amended "2024-01-01" (fun _ => none)
            ⟨true, 200, ""⟩).2.1
            [("status", .str "success"), ("data", .arr [.num 1])] [.num 1]
            rfl rfl,
          (c4_fetch_errors_amended "2024-01-01" (fun _ => none)
            ⟨true, 200, ""⟩).2.2.1 [.str "x"],
          (c4_fetch_errors_amended "2024-01-01" (fun _ => none)
            ⟨true, 200, ""⟩).2.2.2.1 [("data", .arr [])] [] rfl,
          (c4_fetch_errors_amended "2024-01-01" (fun _ => some (.arr []))
            ⟨true, 200, "[]"⟩).2.2.2.2 (.arr []) [] [] rfl (by decide) rfl
            rfl rfl⟩

/-! ## Claim C8 — normalization lemmas -/

/-- `Char.ofNat` round-trips on valid code points. -/
theorem toNat_ofNat_valid (n : Nat) (h : n.isValidChar) :
    (Char.ofNat n).toNat = n := by
  unfold Char.ofNat
  rw [dif_pos h]
  rfl

/-- Lowercasing fixes characters outside `A`-`Z`. -/
theorem toLowerCh_fix (c : Char) (h : ¬(65 ≤ c.toNat ∧ c.toNat ≤ 90)) :
    toLowerCh c = c := by
  unfold toLowerCh
  rw [if_neg h]

/-- Lowercasing an uppercase letter lands in `a`-`z`. -/
theorem toLowerCh_toNat_of_upper (c : Char)
    (h : 65 ≤ c.toNat ∧ c.toNat ≤ 90) :
    (toLowerCh c).toNat = c.toNat + 32 := by
  unfold toLowerCh
  rw [if_pos h]
  exact toNat_ofNat_valid _ (Or.inl (by omega))

/-- Per-character lowercasing is idempotent. -/
theorem toLowerCh_idem (c : Char) : toLowerCh (toLowerCh c) = toLowerCh c := by
  by_cases h : 65 ≤ c.toNat ∧ c.toNat ≤ 90
  · apply toLowerCh_fix
    rw [toLowerCh_toNat_of_upper c h]
    omega
  · rw [toLowerCh_fix c h]
    exact toLowerCh_fix c h

/-- Characters of the collapse are spaces or characters of the input. -/
theorem mem_collapseList (l : List Char) (x : Char)
    (h : x ∈ collapseList l) : x = ' ' ∨ x ∈ l := by
  induction l with
  | nil => cases h
  | cons c cs ih =>
    cases cs with
    | nil =>
      by_cases hw : isWsChar c = true
      · simp [collapseList, hw] at h
        exact Or.inl h
      · simp [collapseList, hw] at h
        exact Or.inr (by simp [h])
    | cons d ds =>
      by_cases hcd : (isWsChar c && isWsChar d) = true
      · rw [show collapseList (c :: d :: ds) = collapseList (d :: ds) by
          simp [collapseList, hcd]] at h
        rcases ih h with h1 | h2
        · exact Or.inl h1
        · exact Or.inr (List.mem_cons_of_mem _ h2)
      · rw [show collapseList (c :: d :: ds)
            = (if isWsChar c then ' ' else c) :: collapseList (d :: ds) by
          simp [collapseList, hcd]] at h
        rcases List.mem_cons.mp h with h1 | h2
        · by_cases hc : isWsChar c = true
          · exact Or.inl (by rw [h1]; simp [hc])
          · refine Or.inr ?_
            rw [h1]
            simp [hc]
        · rcases ih h2 with ha | hb
          · exact Or.inl ha
          · exact Or.inr (List.mem_cons_of_mem _ hb)

/-- Characters of `trimRight` come from the input. -/
theorem mem_trimRight (l : List Char) (x : Char) (h : x ∈ trimRight l) :
    x ∈ l := by
  induction l with
  | nil => cases h
  | cons c cs ih =>
    unfold trimRight at h
    cases htr : trimRight cs with
    | nil =>
      rw [htr] at h
      by_cases hw : isWsChar c = true
      · simp [hw] at h
      · simp [hw] at h
        simp [h]
    | cons r rs =>
      rw [htr] at h
      rcases List.mem_cons.mp h with h1 | h2
      · simp [h1]
      · exact List.mem_cons_of_mem _ (ih (htr ▸ h2))

/-- Head of `dropWhile isWsChar` is never whitespace. -/
theorem headNoWsB_dropWhile (l : List Char) :
    headNoWsB (l.dropWhile isWsChar) = true := by
  induction l with
  | nil => rfl
  | cons c cs ih =>
    rw [List.dropWhile_cons]
    split_ifs with h
    · exact ih
    · simp only [headNoWsB]
      revert h
      cases isWsChar c <;> simp

/-- `trimRight` preserves a whitespace-free head. -/
theorem headNoWsB_trimRight (l : List Char) (h : headNoWsB l = true) :
    headNoWsB (trimRight l) = true := by
  cases l with
  | nil => rfl
  | cons c cs =>
    unfold trimRight
    cases htr : trimRight cs with
    | nil =>
      split_ifs with hw
      · rfl
      · simpa [headNoWsB] using h
    | cons r rs => simpa [headNoWsB] using h

/-- Collapsing preserves a whitespace-free head. -/
theorem headNoWsB_collapse (l : List Char) (h : headNoWsB l = true) :
    headNoWsB (collapseList l) = true := by
  cases l with
  | nil => rfl
  | cons c cs =>
    have hc : isWsChar c = false := by simpa [headNoWsB] using h
    cases cs with
    | nil => simp [collapseList, hc, headNoWsB]
    | cons d ds => simp [collapseList, hc, headNoWsB]

/-- The collapse of a nonempty list is nonempty. -/
theorem collapseList_ne_nil (l : List Char) (h : l ≠ []) :
    collapseList l ≠ [] := by
  induction l with
  | nil => exact absurd rfl h
  | cons c cs ih =>
    cases cs with
    | nil => by_cases hw : isWsChar c = true <;> simp [collapseList, hw]
    | cons d ds =>
      by_cases hcd : (isWsChar c && isWsChar d) = true
      · simp only [collapseList, hcd, if_true]
        exact ih (by simp)
      · simp [collapseList, hcd]

/-- `trimRight` always ends in a non-whitespace character (or is empty). -/
theorem lastNoWsB_trimRight (l : List Char) :
    lastNoWsB (trimRight l) = true := by
  induction l with
  | nil => rfl
  | cons c cs ih =>
    unfold trimRight
    cases htr : trimRight cs with
    | nil =>
      by_cases hw : isWsChar c = true
      · simp [hw, lastNoWsB]
      · simp [hw, lastNoWsB]
    | cons r rs =>
      rw [htr] at ih
      exact ih

/-- Collapsing preserves a whitespace-free last character. -/
theorem lastNoWsB_collapse (l : List Char) (h : lastNoWsB l = true) :
    lastNoWsB (collapseList l) = true := by
  induction l with
  | nil => rfl
  | cons c cs ih =>
    cases cs with
    | nil =>
      have hw : isWsChar c = false := by simpa [lastNoWsB] using h
      simp [collapseList, hw, lastNoWsB]
    | cons d ds =>
      have h' : lastNoWsB (d :: ds) = true := h
      by_cases hcd : (isWsChar c && isWsChar d) = true
      · simp only [collapseList, hcd, if_true]
        exact ih h'
      · have hcd' : (isWsChar c && isWsChar d) = false := by
          revert hcd
          cases isWsChar c && isWsChar d <;> simp
        cases hrest : collapseList (d :: ds) with
        | nil => exact absurd hrest (collapseList_ne_nil _ (by simp))
        | cons e rest =>
          have hlast := ih h'
          rw [hrest] at hlast
          rw [show collapseList (c :: d :: ds)
              = (if isWsChar c then ' ' else c) :: collapseList (d :: ds) by
            simp [collapseList, hcd']]
          rw [hrest]
          exact hlast

/-- All whitespace in a collapse is a plain space. -/
theorem spacesOnlyB_collapse (l : List Char) :
    spacesOnlyB (collapseList l) = true := by
  induction l with
  | nil => rfl
  | cons c cs ih =>
    cases cs with
    | nil =>
      by_cases hw : isWsChar c = true <;> simp [collapseList, hw, spacesOnlyB]
    | cons d ds =>
      by_cases hcd : (isWsChar c && isWsChar d) = true
      · simp only [collapseList, hcd, if_true]
        exact ih
      · have hcd' : (isWsChar c && isWsChar d) = false := by
          revert hcd
          cases isWsChar c && isWsChar d <;> simp
        have hp : ((!isWsChar (if isWsChar c then ' ' else c))
            || ((if isWsChar c then ' ' else c) == ' ')) = true := by
          by_cases hc : isWsChar c = true <;> simp [hc]
        rw [show collapseList (c :: d :: ds)
            = (if isWsChar c then ' ' else c) :: collapseList (d :: ds) by
          simp [collapseList, hcd']]
        rw [spacesOnlyB, List.all_cons, Bool.and_eq_true]
        exact ⟨hp, ih⟩

/-- A collapse never contains two adjacent whitespace characters. -/
theorem noRunB_collapse (l : List Char) :
    noRunB (collapseList l) = true := by
  induction l with
  | nil => rfl
  | cons c cs ih =>
    cases cs with
    | nil => by_cases hw : isWsChar c = true <;> simp [collapseList, hw, noRunB]
    | cons d ds =>
      by_cases hcd : (isWsChar c && isWsChar d) = true
      · simp only [collapseList, hcd, if_true]
        exact ih
      · have hcd' : (isWsChar c && isWsChar d) = false := by
          revert hcd
          cases isWsChar c && isWsChar d <;> simp
        rw [show collapseList (c :: d :: ds)
            = (if isWsChar c then ' ' else c) :: collapseList (d :: ds) by
          simp [collapseList, hcd']]
        cases hrest : collapseList (d :: ds) with
        | nil => simp [noRunB]
        | cons e rest =>
          have hnr := ih
          rw [hrest] at hnr
          have hkey : (isWsChar (if isWsChar c then ' ' else c)
              && isWsChar e) = false := by
            by_cases hc : isWsChar c = true
            · have hd : isWsChar d = false := by
                revert hcd'
                simp [hc]
              have hh : headNoWsB (collapseList (d :: ds)) = true :=
                headNoWsB_collapse _ (by simp [headNoWsB, hd])
              rw [hrest] at hh
              have he : isWsChar e = false := by simpa [headNoWsB] using hh
              simp [he]
            · have hcf : isWsChar c = false := by
                revert hc
                cases isWsChar c <;> simp
              simp [hcf]
          show (!(isWsChar (if isWsChar c then ' ' else c) && isWsChar e)
              && noRunB (e :: rest)) = true
          rw [Bool.and_eq_true]
          exact ⟨by simp [hkey], hnr⟩

/-- Break a normal-form certificate into its five parts. -/
theorem normalB_parts (l : List Char) (h : normalB l = true) :
    lowerFixedB l = true ∧ headNoWsB l = true ∧ lastNoWsB l = true
    ∧ spacesOnlyB l = true ∧ noRunB l = true := by
  unfold normalB at h
  simp only [Bool.and_eq_true] at h
  tauto

/-- Assemble a normal-form certificate. -/
theorem normalB_build (l : List Char) (h1 : lowerFixedB l = true)
    (h2 : headNoWsB l = true) (h3 : lastNoWsB l = true)
    (h4 : spacesOnlyB l = true) (h5 : noRunB l = true) :
    normalB l = true := by
  unfold normalB
  simp [h1, h2, h3, h4, h5]

/-- A pointwise-fixed map is the identity. -/
theorem map_fix_of_forall (l : List Char)
    (h : ∀ c ∈ l, toLowerCh c = c) : l.map toLowerCh = l := by
  induction l with
  | nil => rfl
  | cons c cs ih =>
    simp only [List.map_cons]
    rw [h c (by simp), ih fun x hx => h x (by simp [hx])]

/-- `dropWhile` is the identity when the head is not whitespace. -/
theorem dropWhile_ws_fix (l : List Char) (h : headNoWsB l = true) :
    l.dropWhile isWsChar = l := by
  cases l with
  | nil => rfl
  | cons c cs =>
    have hc : isWsChar c = false := by simpa [headNoWsB] using h
    simp [List.dropWhile_cons, hc]

/-- `trimRight` is the identity when the last character is not whitespace. -/
theorem trimRight_fix (l : List Char) (h : lastNoWsB l = true) :
    trimRight l = l := by
  induction l with
  | nil => rfl
  | cons c cs ih =>
    cases cs with
    | nil =>
      have hc : isWsChar c = false := by simpa [lastNoWsB] using h
      simp [trimRight, hc]
    | cons d ds =>
      have h' : lastNoWsB (d :: ds) = true := h
      unfold trimRight
      rw [ih h']

/-- Collapsing is the identity on space-only, run-free lists. -/
theorem collapse_fix (l : List Char) (h1 : spacesOnlyB l = true)
    (h2 : noRunB l = true) : collapseList l = l := by
  induction l with
  | nil => rfl
  | cons c cs ih =>
    cases cs with
    | nil =>
      by_cases hw : isWsChar c = true
      · have hsp : c = ' ' := by
          have := (List.all_eq_true.mp h1) c (by simp)
          revert this
          simp [hw]
        simp [collapseList, hw, hsp]
      · simp [collapseList, hw]
    | cons d ds =>
      have hpair := Bool.and_eq_true _ _ ▸ h2
      have h1' : ((!isWsChar c || c == ' ')
          && spacesOnlyB (d :: ds)) = true := h1
      have h1p := (Bool.and_eq_true _ _ ▸ h1' : _ ∧ _)
      have hno : (!(isWsChar c && isWsChar d)) = true ∧ noRunB (d :: ds) = true := by
        exact Bool.and_eq_true _ _ ▸ h2
      have hcd : (isWsChar c && isWsChar d) = false := by
        have := hno.1
        revert this
        cases isWsChar c && isWsChar d <;> simp
      have hx : (if isWsChar c then ' ' else c) = c := by
        by_cases hc : isWsChar c = true
        · have hsp : c = ' ' := by
            have := h1p.1
            revert this
            simp [hc]
          simp [hc, hsp]
        · simp [hc]
      rw [show collapseList (c :: d :: ds)
          = (if isWsChar c then ' ' else c) :: collapseList (d :: ds) by
        simp [collapseList, hcd]]
      rw [hx, ih h1p.2 hno.2]

/-- The output of `normalize` is in normal form. -/
theorem normList_normal (l : List Char) : normalB (normList l) = true := by
  apply normalB_build
  · rw [lowerFixedB, List.all_eq_true]
    intro x hx
    rcases mem_collapseList _ _ hx with rfl | hx2
    · decide
    · have hx3 : x ∈ (l.map toLowerCh).dropWhile isWsChar :=
        mem_trimRight _ _ hx2
      have hx4 : x ∈ l.map toLowerCh :=
        (List.dropWhile_sublist isWsChar).mem hx3
      rcases List.mem_map.mp hx4 with ⟨a, _, rfl⟩
      exact beq_iff_eq.mpr (toLowerCh_idem a)
  · exact headNoWsB_collapse _ (headNoWsB_trimRight _ (headNoWsB_dropWhile _))
  · exact lastNoWsB_collapse _ (lastNoWsB_trimRight _)
  · exact spacesOnlyB_collapse _
  · exact noRunB_collapse _

/-- `normalize` is the identity on normal forms. -/
theorem normList_fix (l : List Char) (h : normalB l = true) :
    normList l = l := by
  obtain ⟨h1, h2, h3, h4, h5⟩ := normalB_parts l h
  unfold normList trimList
  rw [map_fix_of_forall l fun c hc =>
      beq_iff_eq.mp ((List.all_eq_true.mp h1) c hc),
    dropWhile_ws_fix l h2, trimRight_fix l h3, collapse_fix l h4 h5]

/-- List-level idempotence of `normalize`. -/
theorem normList_idem (l : List Char) : normList (normList l) = normList l :=
  normList_fix _ (normList_normal l)

/-- The last character of an append with nonempty right part. -/
theorem lastNoWsB_append (xs ys : List Char) (hys : ys ≠ []) :
    lastNoWsB (xs ++ ys) = lastNoWsB ys := by
  induction xs with
  | nil => rfl
  | cons c cs ih =>
    cases hce : cs ++ ys with
    | nil =>
      rcases List.append_eq_nil.mp hce with ⟨-, h2⟩
      exact absurd h2 hys
    | cons e rest =>
      show lastNoWsB (c :: (cs ++ ys)) = lastNoWsB ys
      rw [hce]
      show lastNoWsB (e :: rest) = lastNoWsB ys
      rw [← hce]
      exact ih

/-- Prefixing a non-whitespace character keeps a list run-free. -/
theorem noRunB_cons_not_ws (x : Char) (ys : List Char)
    (hx : isWsChar x = false) (hy : noRunB ys = true) :
    noRunB (x :: ys) = true := by
  cases ys with
  | nil => rfl
  | cons e rest =>
    show (!(isWsChar x && isWsChar e) && noRunB (e :: rest)) = true
    simp [hx, hy]

/-- Appending run-free lists is run-free when the right part starts
non-whitespace. -/
theorem noRunB_append (xs ys : List Char) (hxs : noRunB xs = true)
    (hys : noRunB ys = true) (hh : headNoWsB ys = true) :
    noRunB (xs ++ ys) = true := by
  induction xs with
  | nil => simpa using hys
  | cons c cs ih =>
    cases cs with
    | nil =>
      cases ys with
      | nil => rfl
      | cons e rest =>
        have he : isWsChar e = false := by simpa [headNoWsB] using hh
        show (!(isWsChar c && isWsChar e) && noRunB (e :: rest)) = true
        simp [he, hys]
    | cons d ds =>
      have h1 := (Bool.and_eq_true _ _ ▸ hxs : _ ∧ _).1
      have h2 := (Bool.and_eq_true _ _ ▸ hxs : _ ∧ _).2
      have := ih h2
      show (!(isWsChar c && isWsChar d) && noRunB (d :: (ds ++ ys))) = true
      rw [Bool.and_eq_true]
      exact ⟨h1, this⟩

/-- Joining two normal forms with the `_` separator is again a normal form. -/
theorem normalB_append_underscore (xs ys : List Char)
    (hx : normalB xs = true) (hy : normalB ys = true) :
    normalB (xs ++ '_' :: ys) = true := by
  obtain ⟨x1, x2, x3, x4, x5⟩ := normalB_parts xs hx
  obtain ⟨y1, y2, y3, y4, y5⟩ := normalB_parts ys hy
  apply normalB_build
  · rw [lowerFixedB, List.all_append, Bool.and_eq_true]
    refine ⟨x1, ?_⟩
    rw [List.all_cons, Bool.and_eq_true]
    exact ⟨by decide, y1⟩
  · cases xs with
    | nil =>
      show (!isWsChar '_') = true
      decide
    | cons c cs =>
      show (!isWsChar c) = true
      simpa [headNoWsB] using x2
  · rw [lastNoWsB_append _ _ (by simp)]
    cases ys with
    | nil => decide
    | cons e rest =>
      show lastNoWsB (e :: rest) = true
      exact y3
  · rw [spacesOnlyB, List.all_append, Bool.and_eq_true]
    refine ⟨x4, ?_⟩
    rw [List.all_cons, Bool.and_eq_true]
    exact ⟨by decide, y4⟩
  · apply noRunB_append _ _ x5
    · exact noRunB_cons_not_ws _ _ (by decide) y5
    · show (!isWsChar '_') = true
      decide

/-- Splitting on the first separator is unambiguous when the left parts are
separator-free. -/
theorem append_underscore_inj (xs : List Char) :
    ∀ ys a b : List Char, '_' ∉ xs → '_' ∉ a →
    xs ++ '_' :: ys = a ++ '_' :: b → xs = a ∧ ys = b := by
  induction xs with
  | nil =>
    intro ys a b _ ha h
    cases a with
    | nil => simpa using h
    | cons c a' =>
      rw [List.nil_append] at h
      injection h with h1 h2
      rw [← h1] at ha
      simp at ha
  | cons c xs' ih =>
    intro ys a b hx ha h
    cases a with
    | nil =>
      rw [List.nil_append] at h
      injection h with h1 h2
      rw [h1] at hx
      simp at hx
    | cons d a' =>
      injection h with h1 h2
      have hx' : '_' ∉ xs' := fun hm => hx (List.mem_cons_of_mem _ hm)
      have ha' : '_' ∉ a' := fun hm => ha (List.mem_cons_of_mem _ hm)
      obtain ⟨e1, e2⟩ := ih ys a' b hx' ha' h2
      exact ⟨by rw [h1, e1], e2⟩

/-- `hasChar` is character membership. -/
theorem hasChar_iff (s : String) (c : Char) :
    hasChar s c = true ↔ c ∈ s.data := by
  simp [hasChar, List.contains, List.elem_iff]

/-- A `tameB` component is a normal form without the separator. -/
theorem tameB_parts (s : String) (h : tameB s = true) :
    normalB s.data = true ∧ '_' ∉ s.data := by
  have h1 := (Bool.and_eq_true _ _ ▸ h : _ ∧ _).1
  have h2 := (Bool.and_eq_true _ _ ▸ h : _ ∧ _).2
  constructor
  · have hfix : normStr s = s := beq_iff_eq.mp h1
    have := normList_normal s.data
    have hdata : normList s.data = s.data := by
      have : (normStr s).data = s.data := by rw [hfix]
      simpa [normStr] using this
    rw [← hdata]
    exact normList_normal s.data
  · intro hm
    have : hasChar s '_' = true := (hasChar_iff s '_').mpr hm
    rw [this] at h2
    simp at h2

/-- C8: the ledger normalization is idempotent, the fingerprint is the
normalized `date_customerName_quoteNumber` string, and on reasonable inputs
(already-normalized components free of the `_` separator) distinct
(date, customer, quoteNumber) triples give distinct fingerprints. -/
theorem c8_normalize_idem_fp_inj :
    (∀ s : String, normStr (normStr s) = normStr s)
    ∧ (∀ qa : QuotationA,
        getQuoteFingerprint qa = fpStr qa.date qa.customerName qa.quoteNumber)
    ∧ (∀ d c q d2 c2 q2 : String,
        tameB d = true → tameB c = true → tameB q = true →
        tameB d2 = true → tameB c2 = true → tameB q2 = true →
        fpStr d c q = fpStr d2 c2 q2 → d = d2 ∧ c = c2 ∧ q = q2) := by
  refine ⟨?_, ?_, ?_⟩
  · intro s
    exact String.ext (normList_idem s.data)
  · intro qa
    rfl
  · intro d c q d2 c2 q2 hd hc hq hd2 hc2 hq2 h
    obtain ⟨nd, md⟩ := tameB_parts d hd
    obtain ⟨nc, mc⟩ := tameB_parts c hc
    obtain ⟨nq, mq⟩ := tameB_parts q hq
    obtain ⟨nd2, md2⟩ := tameB_parts d2 hd2
    obtain ⟨nc2, mc2⟩ := tameB_parts c2 hc2
    obtain ⟨nq2, mq2⟩ := tameB_parts q2 hq2
    have houter : normalB (d.data ++ '_' :: (c.data ++ '_' :: q.data)) = true :=
      normalB_append_underscore _ _ nd (normalB_append_underscore _ _ nc nq)
    have houter2 :
        normalB (d2.data ++ '_' :: (c2.data ++ '_' :: q2.data)) = true :=
      normalB_append_underscore _ _ nd2 (normalB_append_underscore _ _ nc2 nq2)
    have hdata : (d ++ "_" ++ c ++ "_" ++ q).data
        = d.data ++ '_' :: (c.data ++ '_' :: q.data) := by
      simp [String.data_append]
    have hdata2 : (d2 ++ "_" ++ c2 ++ "_" ++ q2).data
        = d2.data ++ '_' :: (c2.data ++ '_' :: q2.data) := by
      simp [String.data_append]
    have hfp : fpStr d c q = d ++ "_" ++ c ++ "_" ++ q := by
      apply String.ext
      show normList ((d ++ "_" ++ c ++ "_" ++ q).data)
        = (d ++ "_" ++ c ++ "_" ++ q).data
      rw [hdata]
      exact normList_fix _ houter
    have hfp2 : fpStr d2 c2 q2 = d2 ++ "_" ++ c2 ++ "_" ++ q2 := by
      apply String.ext
      show normList ((d2 ++ "_" ++ c2 ++ "_" ++ q2).data)
        = (d2 ++ "_" ++ c2 ++ "_" ++ q2).data
      rw [hdata2]
      exact normList_fix _ houter2
    rw [hfp, hfp2] at h
    have hdeq : d.data ++ '_' :: (c.data ++ '_' :: q.data)
        = d2.data ++ '_' :: (c2.data ++ '_' :: q2.data) := by
      rw [← hdata, ← hdata2, h]
    obtain ⟨e1, e2⟩ := append_underscore_inj d.data _ _ _ md md2 hdeq
    obtain ⟨e3, e4⟩ := append_underscore_inj c.data _ _ _ mc mc2 e2
    exact ⟨String.ext e1, String.ext e3, String.ext e4⟩

/-- C8 witness: a concrete double normalization, and two concrete reasonable
triples differing in quote number with distinct fingerprints. -/
theorem c8_witness :
    normStr (normStr "  A  B\tc ") = normStr "  A  B\tc "
    ∧ fpStr "2024-01-05" "ravi" "q-1" ≠ fpStr "2024-01-05" "ravi" "q-2" := by
  constructor
  · exact c8_normalize_idem_fp_inj.1 "  A  B\tc "
  · intro h
    have hinj := c8_normalize_idem_fp_inj.2.2 "2024-01-05" "ravi" "q-1"
      "2024-01-05" "ravi" "q-2" (by decide) (by decide) (by decide)
      (by decide) (by decide) (by decide) h
    exact absurd hinj.2.2 (by decide)

/-! ## Claim C2 -/

/-- Elements of an upsert are the new quotation or old elements. -/
theorem mem_upsert (l : List QuotationA) (q' x : QuotationA)
    (h : x ∈ upsert l q') : x = q' ∨ x ∈ l := by
  induction l with
  | nil => simpa [upsert] using h
  | cons a l ih =>
    unfold upsert at h
    split_ifs at h with he
    · rcases List.mem_cons.mp h with h1 | h2
      · exact Or.inl h1
      · exact Or.inr (List.mem_cons_of_mem _ h2)
    · rcases List.mem_cons.mp h with h1 | h2
      · exact Or.inr (by simp [h1])
      · rcases ih h2 with ha | hb
        · exact Or.inl ha
        · exact Or.inr (List.mem_cons_of_mem _ hb)

/-- One step preserves the deleted-quotation invariant: its normalized id
stays tombstoned and it stays out of the visible list, for every event except
a re-save of the same normalized id. -/
theorem inv_step (q : QuotationA) (a : Act) (s : SysState)
    (h1 : normStr q.id ∈ s.ids) (h2 : q ∉ s.visible)
    (ha : noResurrectB (normStr q.id) [a] = true) :
    normStr q.id ∈ (stepA a s).ids ∧ q ∉ (stepA a s).visible := by
  cases a with
  | startFetch cloud =>
    simp only [stepA]
    split_ifs <;> exact ⟨h1, h2⟩
  | resolve i =>
    simp only [stepA]
    cases hf : s.inFlight.get? i with
    | none =>
      simp only [hf]
      exact ⟨h1, h2⟩
    | some cloud =>
      simp only [hf]
      split_ifs with hp
      · exact ⟨h1, h2⟩
      · refine ⟨h1, ?_⟩
        intro hmem
        simp only [applyFetch, validQuotes] at hmem
        have hk := (List.mem_filter.mp hmem).2
        rw [keepQuote_iff] at hk
        exact hk.2.1 h1
  | deleteAct id =>
    simp only [stepA, deleteStep]
    cases hf : s.visible.find? (fun x => x.id == id) with
    | none =>
      simp only [hf]
      refine ⟨h1, ?_⟩
      intro hmem
      exact h2 (List.mem_filter.mp hmem).1
    | some qd =>
      simp only [hf]
      constructor
      · split_ifs with hni
        · exact mem_addUniq_of_mem _ _ _ h1
        · exact h1
      · intro hmem
        exact h2 (List.mem_filter.mp hmem).1
  | saveAct q' =>
    have hstep : (!(normStr q'.id == normStr q.id)) = true := by
      have := (Bool.and_eq_true _ _ ▸ ha : _ ∧ _).1
      exact this
    have hne : (normStr q'.id == normStr q.id) = false := by
      revert hstep
      cases normStr q'.id == normStr q.id <;> simp
    have hne' : normStr q'.id ≠ normStr q.id := by
      intro e
      rw [beq_iff_eq.mpr e] at hne
      cases hne
    have hqq : q' ≠ q := by
      intro e
      rw [e] at hne'
      exact hne' rfl
    simp only [stepA, saveStep]
    constructor
    · simp only [resurrect]
      split_ifs with hcond
      · apply List.mem_filter.mpr
        refine ⟨h1, ?_⟩
        have hbe : (normStr q.id == normStr q'.id) = false := by
          cases hb : normStr q.id == normStr q'.id
          · rfl
          · exact absurd (beq_iff_eq.mp hb) fun e => hne' e.symm
        simp [hbe]
      · exact h1
    · intro hmem
      rcases mem_upsert _ _ _ hmem with he | hm
      · exact hqq he.symm
      · exact h2 hm
  | resume => exact ⟨h1, h2⟩

/-- Running any resurrection-free event sequence preserves the
deleted-quotation invariant. -/
theorem inv_run (q : QuotationA) (acts : List Act) (s : SysState)
    (h1 : normStr q.id ∈ s.ids) (h2 : q ∉ s.visible)
    (ha : noResurrectB (normStr q.id) acts = true) :
    normStr q.id ∈ (runActs acts s).ids
    ∧ q ∉ (runActs acts s).visible := by
  induction acts generalizing s with
  | nil => exact ⟨h1, h2⟩
  | cons a rest ih =>
    have hsplit := (Bool.and_eq_true _ _ ▸ ha : _ ∧ _)
    have haa : noResurrectB (normStr q.id) [a] = true := by
      show (_ && true) = true
      rw [Bool.and_eq_true]
      exact ⟨hsplit.1, by trivial⟩
    obtain ⟨g1, g2⟩ := inv_step q a s h1 h2 haa
    exact ih (stepA a s) g1 g2 hsplit.2

/-- C2: the delete handler performs its synchronous actions in source order
(pause strictly before the ledger write and before the network delete call);
a fetch whose initial guard sees the pause flag is a no-op; a fetch resolving
under pause leaves the visible list and the cache unchanged; and consequently,
after deleting a quotation, no resurrection-free sequence of fetches,
resolutions, deletes, saves of other identities, and resumes ever brings that
quotation back into the visible list. -/
theorem c2_delete_refresh_safety :
    (handlerSeq.indexOf HAct.setPause < handlerSeq.indexOf HAct.writeLedger
      ∧ handlerSeq.indexOf HAct.setPause < handlerSeq.indexOf HAct.callNetworkDelete
      ∧ handlerSeq.indexOf HAct.writeLedger
          < handlerSeq.indexOf HAct.callNetworkDelete)
    ∧ (∀ (s : SysState) (cloud : List QuotationA), s.pause = true →
        stepA (.startFetch cloud) s = s)
    ∧ (∀ (s : SysState) (i : Nat), s.pause = true →
        (stepA (.resolve i) s).visible = s.visible
        ∧ (stepA (.resolve i) s).cache = s.cache)
    ∧ (∀ (s : SysState) (q : QuotationA) (acts : List Act),
        q.id ≠ "" → q ∈ s.visible →
        noResurrectB (normStr q.id) acts = true →
        q ∉ (runActs acts (stepA (.deleteAct q.id) s)).visible) := by
  refine ⟨by decide, ?_, ?_, ?_⟩
  · intro s cloud hp
    simp [stepA, hp]
  · intro s i hp
    simp only [stepA]
    cases hf : s.inFlight.get? i with
    | none => simp [hf]
    | some cloud => simp [hf, hp]
  · intro s q acts hid hv ha
    obtain ⟨hd1, hd2⟩ := deleteStep_tombstones s q hv hid
    exact (inv_run q acts (stepA (.deleteAct q.id) s) hd1 hd2 ha).2

/-- C2 witness: a concrete state where a fetch is already in flight, the user
deletes the quotation, and the stale fetch later resolves (after a resume and
another full fetch round-trip) — the deleted quotation never reappears. -/
theorem c2_witness :
    (⟨"A1", "N1", "2024-01-05", "Ravi", .str "", .str "", .str "", .str "",
      .str "", .str "", .arr [], .num 0, .num 18, .str "", .str "Draft",
      false⟩ : QuotationA)
      ∉ (runActs
          [.resolve 0, .resume,
            .startFetch [⟨"A1", "N1", "2024-01-05", "Ravi", .str "", .str "",
              .str "", .str "", .str "", .str "", .arr [], .num 0, .num 18,
              .str "", .str "Draft", false⟩],
            .resolve 0]
          (stepA (.deleteAct "A1")
            ⟨false, [], [], [],
              [⟨"A1", "N1", "2024-01-05", "Ravi", .str "", .str "", .str "",
                .str "", .str "", .str "", .arr [], .num 0, .num 18, .str "",
                .str "Draft", false⟩],
              [⟨"A1", "N1", "2024-01-05", "Ravi", .str "", .str "", .str "",
                .str "", .str "", .str "", .arr [], .num 0, .num 18, .str "",
                .str "Draft", false⟩],
              [[⟨"A1", "N1", "2024-01-05", "Ravi", .str "", .str "", .str "",
                .str "", .str "", .str "", .arr [], .num 0, .num 18, .str "",
                .str "Draft", false⟩]]⟩)).visible := by
  apply c2_delete_refresh_safety.2.2.2
  · decide
  · simp
  · decide
